import Mathlib

/-!
Verification of the `fn-map` memoizing value store (`src/lib.rs`, `src/raw.rs`).

The Rust core is `RawFnStore`: a `HashMap<TypeKey, ManuallyDealloc>` directory
together with a `bumpalo::Bump` arena.  We embed it as a state record:

* `map`  models the directory as an association list `token ↦ address`
  (`TypeKey` is an integer-shaped type-identity token, embedded as `Nat`;
  `ManuallyDealloc` holds the erased payload pointer, embedded as the payload's
  arena address).
* `heap` models the arena's payloads as an association list `address ↦ value`.
  Addresses are abstract allocation identities: each `Bump::alloc` yields the
  current cursor `next` and bumps it.  Pointer equality in the Rust API is
  address equality here.
* `invoked` instruments which producer tokens have been invoked (`key()` call
  sites in the source), newest first.
* `destroyed` instruments the addresses whose payload destructor
  (`ManuallyDealloc::drop`, i.e. `ptr::drop_in_place`) has run during store
  operations (a `HashMap::insert` over an occupied entry drops the replaced
  cell).

`LocalFnStore` wraps the raw store in a `RefCell`, `AtomicFnStore` in an
`RwLock`; both are embedded as explicit state passing.  Producers passed to
`LocalFnStore::get` may re-enter the store, so they are embedded as a small
expression language `PExp` whose only effectful operation is a nested `get`.
-/

namespace FnMap

/-- Lookup in an association list with `Nat` keys; models both
`HashMap::get` on the directory and dereferencing an arena address. -/
def lookupA {β : Type} (k : Nat) : List (Nat × β) → Option β
  | [] => none
  | (t, b) :: rest => if t = k then some b else lookupA k rest

/-- Insert-or-replace in an association list, modelling `HashMap::insert`:
an existing binding for the key is replaced in place, otherwise the new
binding is appended. -/
def mapInsert (tok a : Nat) : List (Nat × Nat) → List (Nat × Nat)
  | [] => [(tok, a)]
  | (t, b) :: rest =>
    if t = tok then (tok, a) :: rest else (t, b) :: mapInsert tok a rest

/-- State of `RawFnStore` (`src/lib.rs` lines 18–24): directory `map`, arena
(`heap` payloads plus bump cursor `next`), and instrumentation logs
`invoked` / `destroyed`. -/
structure RawFnStore (V : Type) where
  map : List (Nat × Nat)
  heap : List (Nat × V)
  next : Nat
  invoked : List Nat
  destroyed : List Nat
deriving Repr, DecidableEq

namespace RawFnStore

/-- Embeds `RawFnStore::new`: empty directory, fresh arena. -/
def new (V : Type) : RawFnStore V := ⟨[], [], 0, [], []⟩

/-- Embeds `RawFnStore::get_ptr`: `self.map.get(&TypeKey::of_val(key))`,
returning the stored erased pointer on a hit. -/
def get_ptr {V : Type} (s : RawFnStore V) (tok : Nat) : Option Nat :=
  lookupA tok s.map

/-- Embeds `RawFnStore::insert_ptr`: `self.bump.alloc(value)` places the value
at a fresh stable address, then `self.map.insert(TypeKey::of::<F>(), cell)`
records it (dropping a replaced cell, if any: `destroyed` grows then). -/
def insert_ptr {V : Type} (tok : Nat) (v : V) (s : RawFnStore V) :
    Nat × RawFnStore V :=
  let a := s.next
  (a, { map := mapInsert tok a s.map
        heap := (a, v) :: s.heap
        next := a + 1
        invoked := s.invoked
        destroyed :=
          match lookupA tok s.map with
          | some old => old :: s.destroyed
          | none => s.destroyed })

/-- Embeds `RawFnStore::get_or_insert_ptr`: `self.map.entry(tok)
.or_insert_with(|| ManuallyDealloc::new(self.bump.alloc(key())))`.  The
producer runs under the exclusive borrow of the map (`&mut self`), so it
cannot re-enter the store; it is embedded as a plain thunk. -/
def get_or_insert_ptr {V : Type} (tok : Nat) (f : Unit → V)
    (s : RawFnStore V) : Nat × RawFnStore V :=
  match lookupA tok s.map with
  | some a => (a, s)
  | none => insert_ptr tok (f ()) { s with invoked := tok :: s.invoked }

/-- Embeds `RawFnStore::reset`: `self.map.clear()` drops every cell (their
payload destructors run), then `self.bump.reset()` reclaims the arena
memory.  The bump cursor is not rewound: addresses are abstract allocation
identities, so a post-reset allocation is a fresh identity. -/
def reset {V : Type} (s : RawFnStore V) : RawFnStore V :=
  { map := []
    heap := []
    next := s.next
    invoked := s.invoked
    destroyed := s.map.map Prod.snd ++ s.destroyed }

end RawFnStore

/-- Teardown events: `dtor a` is `ManuallyDealloc::drop` running
`ptr::drop_in_place` on the payload at address `a`; `release` is the arena's
memory being returned (drop of the `Bump`, or `Bump::reset`). -/
inductive DropEvent where
  | dtor (addr : Nat)
  | release
deriving Repr, DecidableEq

/-- Event trace of `drop(RawFnStore)`.  Rust drops fields in declaration
order; `map` is declared before `bump` (the source comment reads "Ensure
allocator always drops later than its value to prevent UB"), so every cell's
destructor runs first, then the arena memory is released. -/
def RawFnStore.dropEvents {V : Type} (s : RawFnStore V) : List DropEvent :=
  s.map.map (fun e => DropEvent.dtor e.2) ++ [DropEvent.release]

/-- Event trace of `RawFnStore::reset`: `map.clear()` (all cell destructors)
strictly before `bump.reset()` (memory release). -/
def RawFnStore.resetEvents {V : Type} (s : RawFnStore V) : List DropEvent :=
  s.map.map (fun e => DropEvent.dtor e.2) ++ [DropEvent.release]

/-- Producer bodies for the reentrant wrappers: a producer either returns a
value, panics, or calls `get` on the same store with another producer
(identified by its type token, with its own body) and continues with the
returned value.  This is the shape of every closure in the repository's
tests and example. -/
inductive PExp (V : Type) : Type where
  | ret : V → PExp V
  | panic : PExp V
  | getBind : Nat → PExp V → (V → PExp V) → PExp V

/-- A producer value as passed to `get`: its compile-time identity token
(`TypeKey::of_val` ignores the captured environment and depends only on the
closure's static type) and its body. -/
structure Producer (V : Type) where
  tok : Nat
  body : PExp V

/-- Evaluation of a producer body against the store, threading the state.
The `getBind` case is exactly `LocalFnStore::get_ptr` followed by a read
through the returned pointer (`LocalFnStore::get`): on a directory hit the
stored pointer is reinterpreted and dereferenced, the nested producer being
discarded unrun; on a miss the nested producer body runs first (no borrow of
the map is held across it), then `insert_ptr` installs the result.
Evaluating to `none` models a panic unwinding through the caller. -/
def PExp.eval {V : Type} : PExp V → RawFnStore V → Option V × RawFnStore V
  | .ret v, s => (some v, s)
  | .panic, s => (none, s)
  | .getBind tok body k, s =>
    match lookupA tok s.map with
    | some a =>
      match lookupA a s.heap with
      | some v => PExp.eval (k v) s
      | none => (none, s)
    | none =>
      match PExp.eval body { s with invoked := tok :: s.invoked } with
      | (none, s2) => (none, s2)
      | (some v, s2) =>
        match RawFnStore.insert_ptr tok v s2 with
        | (a, s3) =>
          match lookupA a s3.heap with
          | some w => PExp.eval (k w) s3
          | none => (none, s3)

namespace LocalFnStore

/-- Embeds `LocalFnStore::get_ptr` (`src/lib.rs` lines 81–88).  The `RefCell`
borrow taken for the lookup is released before the producer runs (`let value
= key()` holds no borrow), so a reentrant producer sees the store unborrowed;
the embedding threads the state through the producer's evaluation.  A `none`
result models the producer's panic propagating to the caller. -/
def get_ptr {V : Type} (p : Producer V) (s : RawFnStore V) :
    Option Nat × RawFnStore V :=
  match RawFnStore.get_ptr s p.tok with
  | some a => (some a, s)
  | none =>
    match PExp.eval p.body { s with invoked := p.tok :: s.invoked } with
    | (none, s2) => (none, s2)
    | (some v, s2) =>
      match RawFnStore.insert_ptr p.tok v s2 with
      | (a, s3) => (some a, s3)

/-- Embeds `LocalFnStore::get`: `get_ptr` then a read through the pointer. -/
def get {V : Type} (p : Producer V) (s : RawFnStore V) :
    Option V × RawFnStore V :=
  match get_ptr p s with
  | (some a, s2) => (lookupA a s2.heap, s2)
  | (none, s2) => (none, s2)

/-- Embeds `LocalFnStore::reset`: delegates to `RawFnStore::reset`. -/
def reset {V : Type} (s : RawFnStore V) : RawFnStore V :=
  RawFnStore.reset s

end LocalFnStore

namespace AtomicFnStore

/-- Embeds `AtomicFnStore::get_ptr` (`src/lib.rs` lines 127–134) as run by a
single uninterrupted caller: read-locked lookup, producer outside any lock,
then `self.0.write().insert_ptr::<F, T>(value)` — note the write phase is a
bare `insert_ptr` with no second lookup.  Interleavings of two callers are
expressed by composing the two phases `RawFnStore.get_ptr` and
`RawFnStore.insert_ptr` directly. -/
def get_ptr {V : Type} (p : Producer V) (s : RawFnStore V) :
    Option Nat × RawFnStore V :=
  match RawFnStore.get_ptr s p.tok with
  | some a => (some a, s)
  | none =>
    match PExp.eval p.body { s with invoked := p.tok :: s.invoked } with
    | (none, s2) => (none, s2)
    | (some v, s2) =>
      match RawFnStore.insert_ptr p.tok v s2 with
      | (a, s3) => (some a, s3)

end AtomicFnStore

section Lemmas

variable {V : Type}

@[simp]
theorem lookupA_nil {β : Type} (k : Nat) : lookupA (β := β) k [] = none := rfl

@[simp]
theorem lookupA_cons {β : Type} (k t : Nat) (b : β) (rest : List (Nat × β)) :
    lookupA k ((t, b) :: rest) = if t = k then some b else lookupA k rest := rfl

@[simp]
theorem lookupA_mapInsert_self (tok a : Nat) (m : List (Nat × Nat)) :
    lookupA tok (mapInsert tok a m) = some a := by
  induction m with
  | nil => simp [mapInsert]
  | cons e rest ih =>
    obtain ⟨t, b⟩ := e
    by_cases h : t = tok <;> simp [mapInsert, h, ih]

theorem lookupA_mapInsert_ne {t tok : Nat} (a : Nat) (m : List (Nat × Nat))
    (h : t ≠ tok) : lookupA t (mapInsert tok a m) = lookupA t m := by
  have htok : tok ≠ t := Ne.symm h
  induction m with
  | nil => simp [mapInsert, htok]
  | cons e rest ih =>
    obtain ⟨u, b⟩ := e
    by_cases hu : u = tok
    · subst hu
      simp [mapInsert, htok]
    · simp [mapInsert, hu, ih]

theorem mapInsert_of_absent {tok : Nat} (a : Nat) {m : List (Nat × Nat)}
    (h : lookupA tok m = none) : mapInsert tok a m = m ++ [(tok, a)] := by
  induction m with
  | nil => simp [mapInsert]
  | cons e rest ih =>
    obtain ⟨t, b⟩ := e
    by_cases ht : t = tok
    · simp [ht] at h
    · simp only [lookupA_cons, ht, if_false] at h
      simp [mapInsert, ht, ih h]

namespace RawFnStore

@[simp]
theorem insert_ptr_fst (tok : Nat) (v : V) (s : RawFnStore V) :
    (insert_ptr tok v s).1 = s.next := rfl

@[simp]
theorem insert_ptr_map (tok : Nat) (v : V) (s : RawFnStore V) :
    (insert_ptr tok v s).2.map = mapInsert tok s.next s.map := rfl

@[simp]
theorem insert_ptr_heap (tok : Nat) (v : V) (s : RawFnStore V) :
    (insert_ptr tok v s).2.heap = (s.next, v) :: s.heap := rfl

@[simp]
theorem insert_ptr_next (tok : Nat) (v : V) (s : RawFnStore V) :
    (insert_ptr tok v s).2.next = s.next + 1 := rfl

@[simp]
theorem insert_ptr_invoked (tok : Nat) (v : V) (s : RawFnStore V) :
    (insert_ptr tok v s).2.invoked = s.invoked := rfl

theorem insert_ptr_destroyed_of_absent {tok : Nat} (v : V) {s : RawFnStore V}
    (h : lookupA tok s.map = none) :
    (insert_ptr tok v s).2.destroyed = s.destroyed := by
  simp [insert_ptr, h]

end RawFnStore

/-- Unfolding lemma: a `getBind` whose token is present in the directory
reads the stored payload and continues; the nested producer body is never
evaluated. -/
theorem PExp.eval_getBind_hit {tok a : Nat} {s : RawFnStore V} {w : V}
    (body : PExp V) (k : V → PExp V)
    (hm : lookupA tok s.map = some a) (hh : lookupA a s.heap = some w) :
    PExp.eval (.getBind tok body k) s = PExp.eval (k w) s := by
  simp [PExp.eval, hm, hh]

/-- Unfolding lemma: a `getBind` whose token misses and whose nested body
panics propagates the panic, installing nothing itself. -/
theorem PExp.eval_getBind_miss_panic {tok : Nat} {s s2 : RawFnStore V}
    (body : PExp V) (k : V → PExp V) (hm : lookupA tok s.map = none)
    (hb : PExp.eval body { s with invoked := tok :: s.invoked } = (none, s2)) :
    PExp.eval (.getBind tok body k) s = (none, s2) := by
  simp [PExp.eval, hm, hb]

/-- Unfolding lemma: a `getBind` whose token misses invokes the nested body,
installs its result at a fresh address, and continues with that value. -/
theorem PExp.eval_getBind_miss {tok : Nat} {s s2 : RawFnStore V} {v : V}
    (body : PExp V) (k : V → PExp V) (hm : lookupA tok s.map = none)
    (hb : PExp.eval body { s with invoked := tok :: s.invoked } = (some v, s2)) :
    PExp.eval (.getBind tok body k) s =
      PExp.eval (k v) (RawFnStore.insert_ptr tok v s2).2 := by
  simp [PExp.eval, hm, hb, RawFnStore.insert_ptr]

/-- Producer bodies only ever increase the bump cursor. -/
theorem PExp.eval_next_mono (e : PExp V) (s : RawFnStore V) :
    s.next ≤ (PExp.eval e s).2.next := by
  induction e generalizing s with
  | ret v => exact le_refl _
  | panic => exact le_refl _
  | getBind tok body k ihb ihk =>
    cases hm : lookupA tok s.map with
    | some a =>
      cases hh : lookupA a s.heap with
      | some w => rw [PExp.eval_getBind_hit body k hm hh]; exact ihk w s
      | none => simp [PExp.eval, hm, hh]
    | none =>
      have hb := ihb { s with invoked := tok :: s.invoked }
      cases hbe : PExp.eval body { s with invoked := tok :: s.invoked } with
      | mk r s2 =>
        rw [hbe] at hb
        cases r with
        | none => rw [PExp.eval_getBind_miss_panic body k hm hbe]; exact hb
        | some v =>
          rw [PExp.eval_getBind_miss body k hm hbe]
          have hk := ihk v (RawFnStore.insert_ptr tok v s2).2
          rw [RawFnStore.insert_ptr_next] at hk
          exact le_trans hb (le_trans (Nat.le_succ _) hk)

/-- Producer bodies only append to the invocation log. -/
theorem PExp.eval_invoked_exts (e : PExp V) (s : RawFnStore V) :
    ∃ l, (PExp.eval e s).2.invoked = l ++ s.invoked := by
  induction e generalizing s with
  | ret v => exact ⟨[], rfl⟩
  | panic => exact ⟨[], rfl⟩
  | getBind tok body k ihb ihk =>
    cases hm : lookupA tok s.map with
    | some a =>
      cases hh : lookupA a s.heap with
      | some w => rw [PExp.eval_getBind_hit body k hm hh]; exact ihk w s
      | none => exact ⟨[], by simp [PExp.eval, hm, hh]⟩
    | none =>
      obtain ⟨l1, hb⟩ := ihb { s with invoked := tok :: s.invoked }
      cases hbe : PExp.eval body { s with invoked := tok :: s.invoked } with
      | mk r s2 =>
        rw [hbe] at hb
        simp only at hb
        cases r with
        | none =>
          rw [PExp.eval_getBind_miss_panic body k hm hbe]
          exact ⟨l1 ++ [tok], by simp [hb]⟩
        | some v =>
          rw [PExp.eval_getBind_miss body k hm hbe]
          obtain ⟨l2, hk⟩ := ihk v (RawFnStore.insert_ptr tok v s2).2
          rw [RawFnStore.insert_ptr_invoked] at hk
          exact ⟨l2 ++ (l1 ++ [tok]), by simp [hk, hb]⟩

/-- Producer bodies never disturb an installed directory entry: a token
already bound keeps its bound address across any producer evaluation. -/
theorem PExp.eval_map_frame (e : PExp V) (s : RawFnStore V) {t a : Nat}
    (h : lookupA t s.map = some a) :
    lookupA t (PExp.eval e s).2.map = some a := by
  induction e generalizing s with
  | ret v => exact h
  | panic => exact h
  | getBind tok body k ihb ihk =>
    cases hm : lookupA tok s.map with
    | some b =>
      cases hh : lookupA b s.heap with
      | some w => rw [PExp.eval_getBind_hit body k hm hh]; exact ihk w s h
      | none => simpa [PExp.eval, hm, hh] using h
    | none =>
      have htok : t ≠ tok := by
        intro he
        rw [he, hm] at h
        exact Option.noConfusion h
      cases hbe : PExp.eval body { s with invoked := tok :: s.invoked } with
      | mk r s2 =>
        have hb := ihb { s with invoked := tok :: s.invoked } h
        rw [hbe] at hb
        simp only at hb
        cases r with
        | none => rw [PExp.eval_getBind_miss_panic body k hm hbe]; exact hb
        | some v =>
          rw [PExp.eval_getBind_miss body k hm hbe]
          refine ihk v (RawFnStore.insert_ptr tok v s2).2 ?_
          rw [RawFnStore.insert_ptr_map, lookupA_mapInsert_ne _ _ htok]
          exact hb

/-- Producer bodies never disturb an arena-resident payload: an address below
the bump cursor keeps its payload across any producer evaluation. -/
theorem PExp.eval_heap_frame (e : PExp V) (s : RawFnStore V) {a : Nat} {v : V}
    (ha : a < s.next) (h : lookupA a s.heap = some v) :
    lookupA a (PExp.eval e s).2.heap = some v := by
  induction e generalizing s with
  | ret w => exact h
  | panic => exact h
  | getBind tok body k ihb ihk =>
    cases hm : lookupA tok s.map with
    | some b =>
      cases hh : lookupA b s.heap with
      | some w => rw [PExp.eval_getBind_hit body k hm hh]; exact ihk w s ha h
      | none => simpa [PExp.eval, hm, hh] using h
    | none =>
      cases hbe : PExp.eval body { s with invoked := tok :: s.invoked } with
      | mk r s2 =>
        have hb := ihb { s with invoked := tok :: s.invoked } ha h
        have hn := PExp.eval_next_mono body { s with invoked := tok :: s.invoked }
        rw [hbe] at hb hn
        simp only at hb hn
        cases r with
        | none => rw [PExp.eval_getBind_miss_panic body k hm hbe]; exact hb
        | some v2 =>
          rw [PExp.eval_getBind_miss body k hm hbe]
          have ha2 : a < s2.next := lt_of_lt_of_le ha hn
          refine ihk v2 (RawFnStore.insert_ptr tok v2 s2).2 ?_ ?_
          · rw [RawFnStore.insert_ptr_next]
            exact lt_trans ha2 (Nat.lt_succ_self _)
          · rw [RawFnStore.insert_ptr_heap, lookupA_cons,
              if_neg (Nat.ne_of_gt ha2)]
            exact hb

/-- Unfolding lemma: `LocalFnStore::get_ptr` on a directory hit returns the
stored pointer unchanged; the supplied producer is discarded unrun and the
store state is untouched. -/
theorem LocalFnStore.get_ptr_hit (p : Producer V) {s : RawFnStore V} {a : Nat}
    (h : lookupA p.tok s.map = some a) :
    LocalFnStore.get_ptr p s = (some a, s) := by
  simp [LocalFnStore.get_ptr, RawFnStore.get_ptr, h]

/-- Unfolding lemma: `LocalFnStore::get_ptr` on a miss whose producer panics
propagates the panic; the `insert_ptr` line is never reached. -/
theorem LocalFnStore.get_ptr_miss_panic (p : Producer V) {s s2 : RawFnStore V}
    (hm : lookupA p.tok s.map = none)
    (hb : PExp.eval p.body { s with invoked := p.tok :: s.invoked } =
      (none, s2)) :
    LocalFnStore.get_ptr p s = (none, s2) := by
  simp [LocalFnStore.get_ptr, RawFnStore.get_ptr, hm, hb]

/-- Unfolding lemma: `LocalFnStore::get_ptr` on a miss runs the producer and
installs its result at the arena's fresh address. -/
theorem LocalFnStore.get_ptr_miss (p : Producer V) {s s2 : RawFnStore V}
    {v : V} (hm : lookupA p.tok s.map = none)
    (hb : PExp.eval p.body { s with invoked := p.tok :: s.invoked } =
      (some v, s2)) :
    LocalFnStore.get_ptr p s =
      (some s2.next, (RawFnStore.insert_ptr p.tok v s2).2) := by
  simp [LocalFnStore.get_ptr, RawFnStore.get_ptr, hm, hb]

/-- After a successful `get_ptr`, the directory binds the producer's token to
the returned pointer. -/
theorem LocalFnStore.get_ptr_installs {p : Producer V} {s : RawFnStore V}
    {a : Nat} {s2 : RawFnStore V}
    (h : LocalFnStore.get_ptr p s = (some a, s2)) :
    lookupA p.tok s2.map = some a := by
  cases hm : lookupA p.tok s.map with
  | some b =>
    rw [LocalFnStore.get_ptr_hit p hm] at h
    injection h with h1 h2
    injection h1 with h1
    subst h1
    subst h2
    exact hm
  | none =>
    cases hbe : PExp.eval p.body { s with invoked := p.tok :: s.invoked } with
    | mk r s3 =>
      cases r with
      | none =>
        rw [LocalFnStore.get_ptr_miss_panic p hm hbe] at h
        rw [Prod.mk.injEq] at h
        exact Option.noConfusion h.1
      | some v =>
        rw [LocalFnStore.get_ptr_miss p hm hbe] at h
        injection h with h1 h2
        injection h1 with h1
        subst h1
        subst h2
        simp

/-- A `get` call never disturbs an installed directory entry of any token. -/
theorem LocalFnStore.get_ptr_map_frame (p : Producer V) (s : RawFnStore V)
    {t a : Nat} (h : lookupA t s.map = some a) :
    lookupA t (LocalFnStore.get_ptr p s).2.map = some a := by
  cases hm : lookupA p.tok s.map with
  | some b => rw [LocalFnStore.get_ptr_hit p hm]; exact h
  | none =>
    have htok : t ≠ p.tok := by
      intro he
      rw [he, hm] at h
      exact Option.noConfusion h
    cases hbe : PExp.eval p.body { s with invoked := p.tok :: s.invoked } with
    | mk r s2 =>
      have hb := PExp.eval_map_frame p.body
        { s with invoked := p.tok :: s.invoked } (t := t) (a := a) h
      rw [hbe] at hb
      simp only at hb
      cases r with
      | none => rw [LocalFnStore.get_ptr_miss_panic p hm hbe]; exact hb
      | some v =>
        rw [LocalFnStore.get_ptr_miss p hm hbe]
        simp only [RawFnStore.insert_ptr_map]
        rw [lookupA_mapInsert_ne _ _ htok]
        exact hb

/-- A `get` call never disturbs an arena-resident payload below the bump
cursor. -/
theorem LocalFnStore.get_ptr_heap_frame (p : Producer V) (s : RawFnStore V)
    {a : Nat} {v : V} (ha : a < s.next) (h : lookupA a s.heap = some v) :
    lookupA a (LocalFnStore.get_ptr p s).2.heap = some v := by
  cases hm : lookupA p.tok s.map with
  | some b => rw [LocalFnStore.get_ptr_hit p hm]; exact h
  | none =>
    cases hbe : PExp.eval p.body { s with invoked := p.tok :: s.invoked } with
    | mk r s2 =>
      have hb := PExp.eval_heap_frame p.body
        { s with invoked := p.tok :: s.invoked } ha h
      have hn := PExp.eval_next_mono p.body
        { s with invoked := p.tok :: s.invoked }
      rw [hbe] at hb hn
      simp only at hb hn
      cases r with
      | none => rw [LocalFnStore.get_ptr_miss_panic p hm hbe]; exact hb
      | some w =>
        rw [LocalFnStore.get_ptr_miss p hm hbe]
        simp only [RawFnStore.insert_ptr_heap, lookupA_cons]
        rw [if_neg (Nat.ne_of_gt (lt_of_lt_of_le ha hn))]
        exact hb

/-- A `get` call only appends to the invocation log; on a miss the producer's
own token is logged at the moment `key()` is called. -/
theorem LocalFnStore.get_ptr_invoked (p : Producer V) (s : RawFnStore V) :
    (lookupA p.tok s.map ≠ none →
      ∃ l, (LocalFnStore.get_ptr p s).2.invoked = l ++ s.invoked ∧
        p.tok ∉ l) ∧
    (lookupA p.tok s.map = none →
      ∃ l, (LocalFnStore.get_ptr p s).2.invoked = l ++ p.tok :: s.invoked) := by
  constructor
  · intro hne
    cases hm : lookupA p.tok s.map with
    | some b =>
      exact ⟨[], by rw [LocalFnStore.get_ptr_hit p hm]; simp, by simp⟩
    | none => exact absurd hm hne
  · intro hm
    cases hbe : PExp.eval p.body { s with invoked := p.tok :: s.invoked } with
    | mk r s2 =>
      obtain ⟨l, hl⟩ := PExp.eval_invoked_exts p.body
        { s with invoked := p.tok :: s.invoked }
      rw [hbe] at hl
      simp only at hl
      cases r with
      | none =>
        rw [LocalFnStore.get_ptr_miss_panic p hm hbe]
        exact ⟨l, hl⟩
      | some v =>
        rw [LocalFnStore.get_ptr_miss p hm hbe]
        exact ⟨l, by simpa using hl⟩

/-- The single-caller code path of `AtomicFnStore::get_ptr` coincides with
`LocalFnStore::get_ptr`: both are lookup, producer outside the guard, then a
bare `insert_ptr`. -/
theorem AtomicFnStore.get_ptr_eq_local (p : Producer V) (s : RawFnStore V) :
    AtomicFnStore.get_ptr p s = LocalFnStore.get_ptr p s := rfl

end Lemmas

section Claims

variable {V : Type}

/-- Claim C10: a freshly constructed store is empty — for every producer
token, `get_ptr` on the store returned by `RawFnStore::new` reports absence
before any install has occurred. -/
theorem C10_new_store_empty (V : Type) (tok : Nat) :
    RawFnStore.get_ptr (RawFnStore.new V) tok = none := rfl

/-- Claim C1: `get` is idempotent.  After a successful `get_ptr` returning
pointer `a`: the directory binds the token to `a`; every later call with a
producer of the same identity returns the same pointer `a` with the store
untouched (the supplied producer is discarded without being invoked); if the
first call hit, it returned the stored pointer without changing the store;
if the first call missed, the producer was invoked (its token was logged)
and its result was installed at `a`. -/
theorem C1_get_idempotent (s : RawFnStore V) (p : Producer V) (a : Nat)
    (s2 : RawFnStore V) (h : LocalFnStore.get_ptr p s = (some a, s2)) :
    lookupA p.tok s2.map = some a ∧
    (∀ q : Producer V, q.tok = p.tok →
      LocalFnStore.get_ptr q s2 = (some a, s2)) ∧
    (∀ b, lookupA p.tok s.map = some b → a = b ∧ s2 = s) ∧
    (lookupA p.tok s.map = none →
      (∃ l, s2.invoked = l ++ p.tok :: s.invoked) ∧
      (∃ v s3,
        PExp.eval p.body { s with invoked := p.tok :: s.invoked } =
          (some v, s3) ∧
        lookupA a s2.heap = some v)) := by
  have hinst := LocalFnStore.get_ptr_installs h
  refine ⟨hinst, ?_, ?_, ?_⟩
  · intro q hq
    exact LocalFnStore.get_ptr_hit q (hq ▸ hinst)
  · intro b hb
    rw [LocalFnStore.get_ptr_hit p hb] at h
    injection h with h1 h2
    injection h1 with h1
    exact ⟨h1.symm, h2.symm⟩
  · intro hm
    cases hbe : PExp.eval p.body { s with invoked := p.tok :: s.invoked } with
    | mk r s3 =>
      cases r with
      | none =>
        rw [LocalFnStore.get_ptr_miss_panic p hm hbe] at h
        rw [Prod.mk.injEq] at h
        exact absurd h.1 (by simp)
      | some v =>
        rw [LocalFnStore.get_ptr_miss p hm hbe] at h
        injection h with h1 h2
        injection h1 with h1
        subst h1
        subst h2
        constructor
        · obtain ⟨l, hl⟩ := PExp.eval_invoked_exts p.body
            { s with invoked := p.tok :: s.invoked }
          rw [hbe] at hl
          simp only at hl
          exact ⟨l, by simpa using hl⟩
        · exact ⟨v, s3, rfl, by simp⟩

/-- Witness for C1: installing `5` under token 1 in a fresh store, a second
call with a producer of the same token but a different body returns the same
pointer `0` and leaves the store untouched. -/
theorem C1_get_idempotent_witness :
    LocalFnStore.get_ptr (Producer.mk 1 (PExp.ret (7 : Int)))
        ⟨[(1, 0)], [(0, 5)], 1, [1], []⟩ =
      (some 0, ⟨[(1, 0)], [(0, 5)], 1, [1], []⟩) :=
  (C1_get_idempotent (RawFnStore.new Int) (Producer.mk 1 (PExp.ret 5)) 0
      ⟨[(1, 0)], [(0, 5)], 1, [1], []⟩ rfl).2.1
    (Producer.mk 1 (PExp.ret 7)) rfl

/-- Claim C6: producer identity is the producer's static type, not its
captured data.  If `q` has the same token as `p` (same lexical definition
site, possibly different captures), then after `p`'s value was installed a
`get` with `q` maps to the same entry: it returns `p`'s pointer and payload,
the store is untouched, and `q`'s body is never executed. -/
theorem C6_identity_by_type (s : RawFnStore V) (p q : Producer V) (a : Nat)
    (s2 : RawFnStore V) (htok : q.tok = p.tok)
    (h : LocalFnStore.get_ptr p s = (some a, s2)) :
    LocalFnStore.get_ptr q s2 = (some a, s2) ∧
    LocalFnStore.get q s2 = (lookupA a s2.heap, s2) := by
  have hinst := LocalFnStore.get_ptr_installs h
  have h1 := LocalFnStore.get_ptr_hit q (htok ▸ hinst)
  exact ⟨h1, by simp [LocalFnStore.get, h1]⟩

/-- Witness for C6: the producer `⟨1, ret 20⟩` (same token as `⟨1, ret 10⟩`,
different body) is mapped to the already-installed entry holding `10`; its
own result `20` is never observed. -/
theorem C6_identity_by_type_witness :
    LocalFnStore.get_ptr (Producer.mk 1 (PExp.ret (20 : Int)))
        ⟨[(1, 0)], [(0, 10)], 1, [1], []⟩ =
      (some 0, ⟨[(1, 0)], [(0, 10)], 1, [1], []⟩) ∧
    LocalFnStore.get (Producer.mk 1 (PExp.ret (20 : Int)))
        ⟨[(1, 0)], [(0, 10)], 1, [1], []⟩ =
      (lookupA 0 [(0, (10 : Int))], ⟨[(1, 0)], [(0, 10)], 1, [1], []⟩) :=
  C6_identity_by_type (RawFnStore.new Int) (Producer.mk 1 (PExp.ret 10))
    (Producer.mk 1 (PExp.ret 20)) 0 ⟨[(1, 0)], [(0, 10)], 1, [1], []⟩ rfl rfl

/-- Claim C5: an inserted cell is never replaced.  A token bound in the
directory keeps its binding across any `get` of the local wrapper, any `get`
of the atomic wrapper, and any `get_or_insert_ptr` (the `get_mut` path); and
`insert_ptr` under its precondition (token not already present) appends a
fresh cell, leaves every existing cell exactly in place, and runs no
destructor. -/
theorem C5_cell_never_replaced (s : RawFnStore V) (t a : Nat)
    (h : lookupA t s.map = some a) :
    (∀ p : Producer V, lookupA t (LocalFnStore.get_ptr p s).2.map = some a) ∧
    (∀ p : Producer V, lookupA t (AtomicFnStore.get_ptr p s).2.map = some a) ∧
    (∀ tok (f : Unit → V),
      lookupA t (RawFnStore.get_or_insert_ptr tok f s).2.map = some a) ∧
    (∀ tok (v : V), lookupA tok s.map = none →
      (RawFnStore.insert_ptr tok v s).2.map = s.map ++ [(tok, s.next)] ∧
      (RawFnStore.insert_ptr tok v s).2.destroyed = s.destroyed) := by
  refine ⟨fun p => LocalFnStore.get_ptr_map_frame p s h,
    fun p => ?_, fun tok f => ?_, fun tok v hm => ?_⟩
  · rw [AtomicFnStore.get_ptr_eq_local]
    exact LocalFnStore.get_ptr_map_frame p s h
  · unfold RawFnStore.get_or_insert_ptr
    cases hm : lookupA tok s.map with
    | some b => simpa [hm] using h
    | none =>
      have htok : t ≠ tok := by
        intro he
        rw [he, hm] at h
        exact Option.noConfusion h
      simp only [hm, RawFnStore.insert_ptr_map]
      rw [lookupA_mapInsert_ne _ _ htok]
      exact h
  · exact ⟨by rw [RawFnStore.insert_ptr_map, mapInsert_of_absent _ hm],
      RawFnStore.insert_ptr_destroyed_of_absent v hm⟩

/-- Witness for C5: with token 1 installed at address 0, a `get` with a
fresh-token reentrant producer leaves the binding of token 1 intact. -/
theorem C5_cell_never_replaced_witness :
    lookupA 1
      (LocalFnStore.get_ptr
        (Producer.mk 2 (PExp.getBind 3 (PExp.ret (4 : Int)) PExp.ret))
        ⟨[(1, 0)], [(0, 5)], 1, [1], []⟩).2.map = some 0 :=
  (C5_cell_never_replaced ⟨[(1, 0)], [(0, (5 : Int))], 1, [1], []⟩ 1 0 rfl).1
    (Producer.mk 2 (PExp.getBind 3 (PExp.ret 4) PExp.ret))

/-- Claim C8: pointer stability.  For an installed cell (token `t` at
address `a` holding `v`), any further `get` — in particular one that inserts
additional distinct keys — leaves both the address bound to `t` and the
payload at `a` unchanged, and a direct `insert_ptr` of any other token does
likewise. -/
theorem C8_pointer_stability (s : RawFnStore V) (t a : Nat) (v : V)
    (ha : a < s.next) (h1 : lookupA t s.map = some a)
    (h2 : lookupA a s.heap = some v) :
    (∀ p : Producer V,
      lookupA t (LocalFnStore.get_ptr p s).2.map = some a ∧
      lookupA a (LocalFnStore.get_ptr p s).2.heap = some v) ∧
    (∀ tok (w : V),
      lookupA a (RawFnStore.insert_ptr tok w s).2.heap = some v ∧
      (tok ≠ t →
        lookupA t (RawFnStore.insert_ptr tok w s).2.map = some a)) := by
  refine ⟨fun p => ⟨LocalFnStore.get_ptr_map_frame p s h1,
    LocalFnStore.get_ptr_heap_frame p s ha h2⟩, fun tok w => ⟨?_, fun hne => ?_⟩⟩
  · rw [RawFnStore.insert_ptr_heap, lookupA_cons, if_neg (Nat.ne_of_gt ha)]
    exact h2
  · rw [RawFnStore.insert_ptr_map, lookupA_mapInsert_ne _ _ (Ne.symm hne)]
    exact h1

/-- Witness for C8: after installing token 2 on top of a store holding token
1 at address 0 with payload 5, both the old binding and the old payload are
unchanged. -/
theorem C8_pointer_stability_witness :
    lookupA 1
      (LocalFnStore.get_ptr (Producer.mk 2 (PExp.ret (9 : Int)))
        ⟨[(1, 0)], [(0, 5)], 1, [1], []⟩).2.map = some 0 ∧
    lookupA 0
      (LocalFnStore.get_ptr (Producer.mk 2 (PExp.ret (9 : Int)))
        ⟨[(1, 0)], [(0, 5)], 1, [1], []⟩).2.heap = some 5 :=
  (C8_pointer_stability ⟨[(1, 0)], [(0, (5 : Int))], 1, [1], []⟩ 1 0 5
      (by decide) rfl rfl).1 (Producer.mk 2 (PExp.ret 9))

/-- Claim C7: producer failure.  When the token misses and the producer's
body panics, the panic propagates to the caller unchanged and the state is
exactly the one the producer left (`insert_ptr` is never reached, so no cell
is installed for the key by `get` itself); every other key's cell survives,
so the store stays usable; and for a producer that panics outright the
directory, heap and destructor log are all untouched, the key still absent. -/
theorem C7_producer_failure (s : RawFnStore V) (p : Producer V)
    (s2 : RawFnStore V) (hm : lookupA p.tok s.map = none)
    (hp : PExp.eval p.body { s with invoked := p.tok :: s.invoked } =
      (none, s2)) :
    LocalFnStore.get_ptr p s = (none, s2) ∧
    (∀ t a, lookupA t s.map = some a → lookupA t s2.map = some a) ∧
    (p.body = PExp.panic →
      s2 = { s with invoked := p.tok :: s.invoked } ∧
      lookupA p.tok s2.map = none ∧ s2.heap = s.heap ∧
      s2.destroyed = s.destroyed) := by
  refine ⟨LocalFnStore.get_ptr_miss_panic p hm hp, fun t a hta => ?_, fun hb => ?_⟩
  · have := PExp.eval_map_frame p.body
      { s with invoked := p.tok :: s.invoked } (t := t) (a := a) hta
    rw [hp] at this
    exact this
  · rw [hb] at hp
    have h2 : s2 = { s with invoked := p.tok :: s.invoked } := by
      have heq : PExp.eval PExp.panic { s with invoked := p.tok :: s.invoked } =
          (none, { s with invoked := p.tok :: s.invoked }) := rfl
      rw [heq] at hp
      injection hp with h1 h2
      exact h2.symm
    subst h2
    exact ⟨rfl, hm, rfl, rfl⟩

/-- Witness for C7: a producer that panics outright, requested on a fresh
store, propagates the panic and leaves the directory empty. -/
theorem C7_producer_failure_witness :
    LocalFnStore.get_ptr (Producer.mk 1 (PExp.panic (V := Int)))
        (RawFnStore.new Int) =
      (none, ⟨[], [], 0, [1], []⟩) :=
  (C7_producer_failure (RawFnStore.new Int) (Producer.mk 1 PExp.panic)
      ⟨[], [], 0, [1], []⟩ rfl rfl).1

/-- Claim C2: destruction order.  On drop (field order: `map` before
`bump`, kept deliberately by the source), every installed payload's
destructor event occurs exactly once, all destructor events strictly
precede the arena-release event, and `reset` tears down in the same order. -/
theorem C2_destruction_order (s : RawFnStore V)
    (hnd : (s.map.map Prod.snd).Nodup) :
    (∀ a, a ∈ s.map.map Prod.snd →
      (RawFnStore.dropEvents s).count (DropEvent.dtor a) = 1) ∧
    (RawFnStore.dropEvents s).getLast? = some DropEvent.release ∧
    DropEvent.release ∉ (RawFnStore.dropEvents s).dropLast ∧
    (RawFnStore.dropEvents s).dropLast =
      s.map.map (fun e => DropEvent.dtor e.2) ∧
    RawFnStore.resetEvents s = RawFnStore.dropEvents s := by
  have hinj : Function.Injective (DropEvent.dtor) := by
    intro x y hxy
    injection hxy
  have hmap : s.map.map (fun e => DropEvent.dtor e.2) =
      (s.map.map Prod.snd).map DropEvent.dtor := by
    rw [List.map_map]
    rfl
  refine ⟨fun a ha => ?_, ?_, ?_, ?_, rfl⟩
  · unfold RawFnStore.dropEvents
    rw [List.count_append, hmap,
      List.count_map_of_injective _ DropEvent.dtor hinj a,
      List.count_eq_one_of_mem hnd ha]
    simp
  · exact List.getLast?_concat _
  · unfold RawFnStore.dropEvents
    rw [List.dropLast_concat, hmap]
    simp
  · unfold RawFnStore.dropEvents
    rw [List.dropLast_concat]

/-- Witness for C2: a store holding two cells at distinct addresses tears
down with one destructor event per payload, the release strictly last. -/
theorem C2_destruction_order_witness :
    (RawFnStore.dropEvents
      (⟨[(1, 0), (2, 1)], [(1, 7), (0, 5)], 2, [], []⟩ :
        RawFnStore Int)).count (DropEvent.dtor 0) = 1 ∧
    (RawFnStore.dropEvents
      (⟨[(1, 0), (2, 1)], [(1, 7), (0, 5)], 2, [], []⟩ :
        RawFnStore Int)).getLast? = some DropEvent.release :=
  ⟨(C2_destruction_order
      (⟨[(1, 0), (2, 1)], [(1, 7), (0, 5)], 2, [], []⟩ : RawFnStore Int)
      (by decide)).1 0 (by decide),
   (C2_destruction_order
      (⟨[(1, 0), (2, 1)], [(1, 7), (0, 5)], 2, [], []⟩ : RawFnStore Int)
      (by decide)).2.1⟩

/-- Claim C4: `reset` clears the directory (running every cell's destructor)
strictly before the arena memory is reclaimed; afterwards the store is
empty, every lookup misses, and a subsequent `get` re-invokes its producer
— in the literal scenario, a producer installed before `reset` and
requested after is invoked twice in total and yields a different address. -/
theorem C4_reset_semantics (s : RawFnStore V) :
    (RawFnStore.reset s).map = [] ∧
    (∀ tok, RawFnStore.get_ptr (RawFnStore.reset s) tok = none) ∧
    (RawFnStore.resetEvents s).getLast? = some DropEvent.release ∧
    (RawFnStore.resetEvents s).dropLast =
      s.map.map (fun e => DropEvent.dtor e.2) ∧
    (RawFnStore.reset s).destroyed = s.map.map Prod.snd ++ s.destroyed ∧
    (∀ p : Producer V, ∃ l,
      (LocalFnStore.get_ptr p (RawFnStore.reset s)).2.invoked =
        l ++ p.tok :: s.invoked) ∧
    ((LocalFnStore.get_ptr (Producer.mk 1 (PExp.ret (1 : Int)))
        (RawFnStore.reset
          (LocalFnStore.get_ptr (Producer.mk 1 (PExp.ret 1))
            (RawFnStore.new Int)).2)).2.invoked.count 1 = 2 ∧
      (LocalFnStore.get_ptr (Producer.mk 1 (PExp.ret (1 : Int)))
        (RawFnStore.reset
          (LocalFnStore.get_ptr (Producer.mk 1 (PExp.ret 1))
            (RawFnStore.new Int)).2)).1 ≠
        (LocalFnStore.get_ptr (Producer.mk 1 (PExp.ret (1 : Int)))
          (RawFnStore.new Int)).1) := by
  refine ⟨rfl, fun tok => rfl, List.getLast?_concat _, ?_, rfl,
    fun p => (LocalFnStore.get_ptr_invoked p (RawFnStore.reset s)).2 rfl,
    by decide, by decide⟩
  unfold RawFnStore.resetEvents
  rw [List.dropLast_concat]

/-- Claim C3: reentrancy.  A producer may itself call `get` on the same
store for a different identity: with token `t2`'s producer computing token
`t1`'s value plus a pure function, the nested call installs and returns the
inner value, then the outer result is installed; both cells coexist, no
destructor runs, and each producer was invoked once.  The second conjunct is
the literal `test_local` scenario: `b := *s.get(|| *s.get(one) + 1)` gives
`b == 2`, then `a := *s.get(one)` gives `a == 1` with `one` invoked exactly
once across both calls. -/
theorem C3_reentrant_get (s : RawFnStore V) (t1 t2 : Nat) (w : V) (f : V → V)
    (hne : t1 ≠ t2) (h1 : lookupA t1 s.map = none)
    (h2 : lookupA t2 s.map = none) :
    (∃ s2 : RawFnStore V,
      LocalFnStore.get
          (Producer.mk t2
            (PExp.getBind t1 (PExp.ret w) (fun v => PExp.ret (f v)))) s =
        (some (f w), s2) ∧
      lookupA t1 s2.map = some s.next ∧
      lookupA s.next s2.heap = some w ∧
      lookupA t2 s2.map = some (s.next + 1) ∧
      lookupA (s.next + 1) s2.heap = some (f w) ∧
      s2.invoked = t1 :: t2 :: s.invoked ∧
      s2.destroyed = s.destroyed) ∧
    ((LocalFnStore.get
        (Producer.mk 2
          (PExp.getBind 1 (PExp.ret (1 : Int)) (fun v => PExp.ret (v + 1))))
        (RawFnStore.new Int)).1 = some 2 ∧
      (LocalFnStore.get (Producer.mk 1 (PExp.ret (1 : Int)))
        (LocalFnStore.get
          (Producer.mk 2
            (PExp.getBind 1 (PExp.ret (1 : Int))
              (fun v => PExp.ret (v + 1))))
          (RawFnStore.new Int)).2).1 = some 1 ∧
      (LocalFnStore.get (Producer.mk 1 (PExp.ret (1 : Int)))
        (LocalFnStore.get
          (Producer.mk 2
            (PExp.getBind 1 (PExp.ret (1 : Int))
              (fun v => PExp.ret (v + 1))))
          (RawFnStore.new Int)).2).2.invoked.count 1 = 1) := by
  constructor
  · have h1s : lookupA t1
        ({ s with invoked := t2 :: s.invoked } : RawFnStore V).map = none := h1
    have hbret : PExp.eval (PExp.ret w)
        { s with invoked := t1 :: t2 :: s.invoked } =
        (some w, { s with invoked := t1 :: t2 :: s.invoked }) := rfl
    have hb : PExp.eval
        (PExp.getBind t1 (PExp.ret w) (fun v => PExp.ret (f v)))
        { s with invoked := t2 :: s.invoked } =
        (some (f w),
          (RawFnStore.insert_ptr t1 w
            { s with invoked := t1 :: t2 :: s.invoked }).2) := by
      rw [PExp.eval_getBind_miss (PExp.ret w) (fun v => PExp.ret (f v)) h1s
        hbret]
      rfl
    have hg := LocalFnStore.get_ptr_miss
      (Producer.mk t2 (PExp.getBind t1 (PExp.ret w) (fun v => PExp.ret (f v))))
      h2 hb
    have ht2A : lookupA t2
        (RawFnStore.insert_ptr t1 w
          { s with invoked := t1 :: t2 :: s.invoked }).2.map = none := by
      rw [RawFnStore.insert_ptr_map, lookupA_mapInsert_ne _ _ (Ne.symm hne)]
      exact h2
    refine ⟨(RawFnStore.insert_ptr t2 (f w)
      (RawFnStore.insert_ptr t1 w
        { s with invoked := t1 :: t2 :: s.invoked }).2).2,
      ?_, ?_, ?_, ?_, ?_, rfl, ?_⟩
    · unfold LocalFnStore.get
      rw [hg]
      simp
    · simp only [RawFnStore.insert_ptr_map]
      rw [lookupA_mapInsert_ne _ _ hne]
      simp
    · simp only [RawFnStore.insert_ptr_heap, RawFnStore.insert_ptr_next,
        lookupA_cons]
      rw [if_neg (Nat.succ_ne_self s.next)]
      simp
    · simp only [RawFnStore.insert_ptr_map, RawFnStore.insert_ptr_next]
      simp
    · simp only [RawFnStore.insert_ptr_heap, RawFnStore.insert_ptr_next,
        lookupA_cons]
      simp
    · have h1i : lookupA t1
          ({ s with invoked := t1 :: t2 :: s.invoked } : RawFnStore V).map =
          none := h1
      rw [RawFnStore.insert_ptr_destroyed_of_absent (f w) ht2A,
        RawFnStore.insert_ptr_destroyed_of_absent w h1i]
  · exact ⟨by decide, by decide, by decide⟩

/-- Witness for C3: the literal scenario component, obtained by applying the
theorem at the fresh store with `one` as inner producer. -/
theorem C3_reentrant_get_witness :
    (LocalFnStore.get
        (Producer.mk 2
          (PExp.getBind 1 (PExp.ret (1 : Int)) (fun v => PExp.ret (v + 1))))
        (RawFnStore.new Int)).1 = some 2 ∧
    (LocalFnStore.get (Producer.mk 1 (PExp.ret (1 : Int)))
      (LocalFnStore.get
        (Producer.mk 2
          (PExp.getBind 1 (PExp.ret (1 : Int)) (fun v => PExp.ret (v + 1))))
        (RawFnStore.new Int)).2).1 = some 1 ∧
    (LocalFnStore.get (Producer.mk 1 (PExp.ret (1 : Int)))
      (LocalFnStore.get
        (Producer.mk 2
          (PExp.getBind 1 (PExp.ret (1 : Int)) (fun v => PExp.ret (v + 1))))
        (RawFnStore.new Int)).2).2.invoked.count 1 = 1 :=
  (C3_reentrant_get (RawFnStore.new Int) 1 2 1 (fun v => v + 1) (by decide)
    rfl rfl).2

/-- Claim C9 (refuted by the code, demonstrated here): `AtomicFnStore::
get_ptr` does not re-check under the writer lock.  At the failing
interleaving — both callers' read-phase lookups miss on the fresh store,
then each write phase runs the bare `insert_ptr` — the two callers receive
different pointers (`0` and `1`), the directory ends bound to the second
pointer, and the first caller's cell is destroyed while its pointer is
still outstanding. -/
theorem C9_no_recheck_under_writer :
    RawFnStore.get_ptr (RawFnStore.new Int) 1 = none ∧
    (RawFnStore.insert_ptr 1 (1 : Int) (RawFnStore.new Int)).1 = 0 ∧
    (RawFnStore.insert_ptr 1 (1 : Int)
      (RawFnStore.insert_ptr 1 (1 : Int) (RawFnStore.new Int)).2).1 = 1 ∧
    (0 : Nat) ≠ 1 ∧
    lookupA 1 (RawFnStore.insert_ptr 1 (1 : Int)
      (RawFnStore.insert_ptr 1 (1 : Int)
        (RawFnStore.new Int)).2).2.map = some 1 ∧
    0 ∈ (RawFnStore.insert_ptr 1 (1 : Int)
      (RawFnStore.insert_ptr 1 (1 : Int)
        (RawFnStore.new Int)).2).2.destroyed := by
  refine ⟨rfl, rfl, rfl, by decide, rfl, by decide⟩

end Claims

end FnMap
